import Mathlib

/-!
# Verification of the `fidget` shape catalog (`src/fidget/src/shapes/mod.rs`)

The shapes module builds signed-distance-function expression trees over an
external symbolic algebra (`crate::context::Tree`).  The algebra itself is not
part of the module; its surface and evaluation semantics are modelled from the
specification (§3 capability table, §6 semantics).  Scalars are modelled as
extended reals (`EReal`), so that the `f64` constants `±∞` used by the empty
Union/Intersection branches are representable; evaluation points are triples of
ordinary reals.
-/

set_option linter.constructorNameAsVariable false

namespace Fidget

/-- Modelled from the spec: scalar absolute value of the external algebra's
`abs`, on extended reals.  `max v (-v)` agrees with `|·|` on finite values and
sends both infinities to `+∞`. -/
noncomputable def eabs (v : EReal) : EReal := max v (-v)

/-- Modelled from the spec: the external algebra's `square`. -/
noncomputable def esquare (v : EReal) : EReal := v * v

/-- Modelled from the spec: the external algebra's `sqrt`, sending `+∞` to
`+∞` and a finite value to its real square root. -/
noncomputable def esqrt (v : EReal) : EReal :=
  if v = ⊤ then ⊤ else ((Real.sqrt v.toReal : ℝ) : EReal)

/-- Modelled from the spec: the positive-period modulo convention on reals,
`a mod p = a - p * ⌊a / p⌋`, which lies in `[0, p)` for `p > 0`. -/
noncomputable def rmod (a p : ℝ) : ℝ := a - p * ⌊a / p⌋

/-- Modelled from the spec: the external algebra's `modulo(period)` on
extended reals (periods are finite scalars). -/
noncomputable def emod (v : EReal) (p : ℝ) : EReal := ((rmod v.toReal p : ℝ) : EReal)

/-- Modelled from the spec: the external algebra's `sin`. -/
noncomputable def esin (v : EReal) : EReal := ((Real.sin v.toReal : ℝ) : EReal)

/-- Modelled from the spec: the external algebra's `cos`. -/
noncomputable def ecos (v : EReal) : EReal := ((Real.cos v.toReal : ℝ) : EReal)

/-- Modelled from the spec: the external symbolic expression tree
(`crate::context::Tree`) over free variables X, Y, Z, with the capabilities the
shapes module consumes: constants, arithmetic, unary math, lattice `min`/`max`,
and `modulo`.  Constants are extended reals, mirroring `f64` with `±∞`. -/
inductive Tree where
  | x : Tree
  | y : Tree
  | z : Tree
  | const (c : EReal) : Tree
  | add (a b : Tree) : Tree
  | sub (a b : Tree) : Tree
  | mul (a b : Tree) : Tree
  | neg (a : Tree) : Tree
  | min (a b : Tree) : Tree
  | max (a b : Tree) : Tree
  | square (a : Tree) : Tree
  | sqrt (a : Tree) : Tree
  | abs (a : Tree) : Tree
  | sin (a : Tree) : Tree
  | cos (a : Tree) : Tree
  | modulo (a : Tree) (p : ℝ) : Tree

/-- Modelled from the spec: `Tree::axes()` returns the three free-variable
trees (X, Y, Z). -/
def Tree.axes : Tree × Tree × Tree := (Tree.x, Tree.y, Tree.z)

/-- Modelled from the spec: evaluation of a tree at a numeric point `(x,y,z)`;
every capability is elementwise on evaluation. -/
noncomputable def eval : Tree → ℝ × ℝ × ℝ → EReal
  | .x, p => ((p.1 : ℝ) : EReal)
  | .y, p => ((p.2.1 : ℝ) : EReal)
  | .z, p => ((p.2.2 : ℝ) : EReal)
  | .const c, _ => c
  | .add a b, p => eval a p + eval b p
  | .sub a b, p => eval a p - eval b p
  | .mul a b, p => eval a p * eval b p
  | .neg a, p => - eval a p
  | .min a b, p => Min.min (eval a p) (eval b p)
  | .max a b, p => Max.max (eval a p) (eval b p)
  | .square a, p => esquare (eval a p)
  | .sqrt a, p => esqrt (eval a p)
  | .abs a, p => eabs (eval a p)
  | .sin a, p => esin (eval a p)
  | .cos a, p => ecos (eval a p)
  | .modulo a q, p => emod (eval a p) q

/-- Modelled from the spec: `remap_xyz(tx, ty, tz)` substitutes trees for
X, Y, Z, recursively. -/
def remapXyz (t tx ty tz : Tree) : Tree :=
  match t with
  | .x => tx
  | .y => ty
  | .z => tz
  | .const c => .const c
  | .add a b => .add (remapXyz a tx ty tz) (remapXyz b tx ty tz)
  | .sub a b => .sub (remapXyz a tx ty tz) (remapXyz b tx ty tz)
  | .mul a b => .mul (remapXyz a tx ty tz) (remapXyz b tx ty tz)
  | .neg a => .neg (remapXyz a tx ty tz)
  | .min a b => .min (remapXyz a tx ty tz) (remapXyz b tx ty tz)
  | .max a b => .max (remapXyz a tx ty tz) (remapXyz b tx ty tz)
  | .square a => .square (remapXyz a tx ty tz)
  | .sqrt a => .sqrt (remapXyz a tx ty tz)
  | .abs a => .abs (remapXyz a tx ty tz)
  | .sin a => .sin (remapXyz a tx ty tz)
  | .cos a => .cos (remapXyz a tx ty tz)
  | .modulo a q => .modulo (remapXyz a tx ty tz) q

/-- Modelled from the spec: the X/Y/Z image rows of a 4×4 homogeneous
transform, as affine trees `m i 0 * X + m i 1 * Y + m i 2 * Z + m i 3`. -/
def affineCoord (m : Fin 4 → Fin 4 → ℝ) (i : Fin 4) : Tree :=
  .add (.add (.add (.mul (.const ((m i 0 : ℝ) : EReal)) .x)
                   (.mul (.const ((m i 1 : ℝ) : EReal)) .y))
             (.mul (.const ((m i 2 : ℝ) : EReal)) .z))
       (.const ((m i 3 : ℝ) : EReal))

/-- Modelled from the spec: `remap_affine(M)` substitutes the
linear-plus-translation image of (X, Y, Z) under the homogeneous 4×4 matrix. -/
def remapAffine (t : Tree) (m : Fin 4 → Fin 4 → ℝ) : Tree :=
  remapXyz t (affineCoord m 0) (affineCoord m 1) (affineCoord m 2)

/-- The 4×4 homogeneous matrix of `nalgebra::Translation3::new(tx, ty, tz)`:
identity linear part with translation column `(tx, ty, tz)`. -/
def translation3 (tx ty tz : ℝ) : Fin 4 → Fin 4 → ℝ := fun i j =>
  if j = 3 then (if i = 0 then tx else if i = 1 then ty else if i = 2 then tz else 1)
  else if (i : ℕ) = (j : ℕ) then 1 else 0

/-- A 2D vector of scalars (`shapes/vec.rs`). -/
structure Vec2 where
  x : ℝ
  y : ℝ

/-- A 3D vector of scalars (`shapes/vec.rs`). -/
structure Vec3 where
  x : ℝ
  y : ℝ
  z : ℝ

/-- A 2D circle. -/
structure Circle where
  center : Vec2
  radius : ℝ

/-- Conversion `impl From<Circle> for Tree`. -/
def Circle.toTree (v : Circle) : Tree :=
  let (x, y, _) := Tree.axes
  Tree.sub (Tree.sqrt (Tree.add (Tree.square (x.sub (.const (v.center.x : ℝ))))
                                (Tree.square (y.sub (.const (v.center.y : ℝ))))))
           (.const (v.radius : ℝ))

/-- Axis-aligned rectangle. -/
structure Rect where
  center : Vec2
  half_size : Vec2

/-- Conversion `impl From<Rect> for Tree`. -/
def Rect.toTree (v : Rect) : Tree :=
  let (x, y, _) := Tree.axes
  let dx := Tree.sub (Tree.abs (x.sub (.const (v.center.x : ℝ)))) (.const (v.half_size.x : ℝ))
  let dy := Tree.sub (Tree.abs (y.sub (.const (v.center.y : ℝ)))) (.const (v.half_size.y : ℝ))
  let ox := dx.max (.const ((0 : ℝ) : EReal))
  let oy := dy.max (.const ((0 : ℝ) : EReal))
  Tree.add (Tree.sqrt (Tree.add ox.square oy.square))
           ((dx.max dy).min (.const ((0 : ℝ) : EReal)))

/-- A 3D sphere. -/
structure Sphere where
  center : Vec3
  radius : ℝ

/-- Conversion `impl From<Sphere> for Tree`. -/
def Sphere.toTree (v : Sphere) : Tree :=
  let (x, y, z) := Tree.axes
  Tree.sub (Tree.sqrt (Tree.add (Tree.add (Tree.square (x.sub (.const (v.center.x : ℝ))))
                                          (Tree.square (y.sub (.const (v.center.y : ℝ)))))
                                (Tree.square (z.sub (.const (v.center.z : ℝ))))))
           (.const (v.radius : ℝ))

/-- Axis-aligned box. -/
structure Cuboid where
  center : Vec3
  half_size : Vec3

/-- Conversion `impl From<Cuboid> for Tree`. -/
def Cuboid.toTree (v : Cuboid) : Tree :=
  let (x, y, z) := Tree.axes
  let dx := Tree.sub (Tree.abs (x.sub (.const (v.center.x : ℝ)))) (.const (v.half_size.x : ℝ))
  let dy := Tree.sub (Tree.abs (y.sub (.const (v.center.y : ℝ)))) (.const (v.half_size.y : ℝ))
  let dz := Tree.sub (Tree.abs (z.sub (.const (v.center.z : ℝ)))) (.const (v.half_size.z : ℝ))
  let ox := dx.max (.const ((0 : ℝ) : EReal))
  let oy := dy.max (.const ((0 : ℝ) : EReal))
  let oz := dz.max (.const ((0 : ℝ) : EReal))
  Tree.add (Tree.sqrt (Tree.add (Tree.add ox.square oy.square) oz.square))
           ((dx.max (dy.max dz)).min (.const ((0 : ℝ) : EReal)))

/-- Finite cylinder aligned with the Y axis. -/
structure Cylinder where
  center : Vec3
  radius : ℝ
  half_height : ℝ

/-- Conversion `impl From<Cylinder> for Tree`. -/
def Cylinder.toTree (v : Cylinder) : Tree :=
  let (x, y, z) := Tree.axes
  let px := x.sub (.const (v.center.x : ℝ))
  let py := y.sub (.const (v.center.y : ℝ))
  let pz := z.sub (.const (v.center.z : ℝ))
  let dx := Tree.sub (Tree.sqrt (Tree.add px.square pz.square)) (.const (v.radius : ℝ))
  let dy := Tree.sub py.abs (.const (v.half_height : ℝ))
  let ox := dx.max (.const ((0 : ℝ) : EReal))
  let oy := dy.max (.const ((0 : ℝ) : EReal))
  Tree.add (Tree.sqrt (Tree.add ox.square oy.square))
           ((dx.max dy).min (.const ((0 : ℝ) : EReal)))

/-- Torus aligned with the Y axis. -/
structure Torus where
  center : Vec3
  major_radius : ℝ
  tube_radius : ℝ

/-- Conversion `impl From<Torus> for Tree`. -/
def Torus.toTree (v : Torus) : Tree :=
  let (x, y, z) := Tree.axes
  let px := x.sub (.const (v.center.x : ℝ))
  let py := y.sub (.const (v.center.y : ℝ))
  let pz := z.sub (.const (v.center.z : ℝ))
  let q := Tree.add (Tree.square (Tree.sub (Tree.sqrt (Tree.add px.square pz.square))
                                           (.const (v.major_radius : ℝ))))
                    py.square
  Tree.sub q.sqrt (.const (v.tube_radius : ℝ))

/-- The inner `recurse` of `impl From<Union> for Tree`: balanced pairwise
`min` over a non-empty slice, splitting at `n / 2`.  The source never calls it
on an empty slice; the `[]` branch is unreachable filler. -/
def reduceMin (s : List Tree) : Tree :=
  match h : s.length with
  | 0 => Tree.const ⊤
  | 1 => s.headD (Tree.const ⊤)
  | _ + 2 =>
      Tree.min (reduceMin (s.take (s.length / 2))) (reduceMin (s.drop (s.length / 2)))
termination_by s.length
decreasing_by
  · simp only [List.length_take]; omega
  · simp only [List.length_drop]; omega

/-- The inner `recurse` of `impl From<Intersection> for Tree`: balanced
pairwise `max` over a non-empty slice, splitting at `n / 2`. -/
def reduceMax (s : List Tree) : Tree :=
  match h : s.length with
  | 0 => Tree.const ⊥
  | 1 => s.headD (Tree.const ⊥)
  | _ + 2 =>
      Tree.max (reduceMax (s.take (s.length / 2))) (reduceMax (s.drop (s.length / 2)))
termination_by s.length
decreasing_by
  · simp only [List.length_take]; omega
  · simp only [List.length_drop]; omega

/-- Take the union of a set of shapes. -/
structure Union where
  input : List Tree

/-- Conversion `impl From<Union> for Tree`: empty input gives the constant `+∞` tree,
otherwise balanced pairwise `min`. -/
def Union.toTree (v : Union) : Tree :=
  if v.input.isEmpty then Tree.const ⊤ else reduceMin v.input

/-- Take the intersection of a set of shapes. -/
structure Intersection where
  input : List Tree

/-- Conversion `impl From<Intersection> for Tree`: empty input gives the constant `−∞`
tree, otherwise balanced pairwise `max`. -/
def Intersection.toTree (v : Intersection) : Tree :=
  if v.input.isEmpty then Tree.const ⊥ else reduceMax v.input

/-- Computes the inverse of a shape. -/
structure Inverse where
  shape : Tree

/-- Conversion `impl From<Inverse> for Tree`: `-v.shape`. -/
def Inverse.toTree (v : Inverse) : Tree := Tree.neg v.shape

/-- Take the difference of two shapes. -/
structure Difference where
  shape : Tree
  cutout : Tree

/-- Conversion `impl From<Difference> for Tree`: `v.shape.max(-v.cutout)`. -/
def Difference.toTree (v : Difference) : Tree := v.shape.max (Tree.neg v.cutout)

/-- Uniformly round (or offset) a shape. -/
structure Round where
  shape : Tree
  radius : ℝ

/-- Conversion `impl From<Round> for Tree`: `v.shape - v.radius`. -/
def Round.toTree (v : Round) : Tree := v.shape.sub (.const (v.radius : ℝ))

/-- Form a shell of constant thickness around a shape. -/
structure Onion where
  shape : Tree
  thickness : ℝ

/-- Conversion `impl From<Onion> for Tree`: `v.shape.abs() - v.thickness`. -/
def Onion.toTree (v : Onion) : Tree := v.shape.abs.sub (.const (v.thickness : ℝ))

/-- Repeat a shape with the given periodicity. -/
structure Repeat where
  shape : Tree
  cell : Vec3

/-- Conversion `impl From<Repeat> for Tree`: remaps each coordinate to
`(coord + half_cell) mod cell - half_cell`. -/
def Repeat.toTree (v : Repeat) : Tree :=
  let (x, y, z) := Tree.axes
  let hx := v.cell.x * 0.5
  let hy := v.cell.y * 0.5
  let hz := v.cell.z * 0.5
  let px := Tree.sub ((x.add (.const (hx : ℝ))).modulo v.cell.x) (.const (hx : ℝ))
  let py := Tree.sub ((y.add (.const (hy : ℝ))).modulo v.cell.y) (.const (hy : ℝ))
  let pz := Tree.sub ((z.add (.const (hz : ℝ))).modulo v.cell.z) (.const (hz : ℝ))
  remapXyz v.shape px py pz

/-- Twist a shape around the Y axis. -/
structure Twist where
  shape : Tree
  k : ℝ

/-- Conversion `impl From<Twist> for Tree`: rotates each horizontal slice by `k * y`. -/
def Twist.toTree (v : Twist) : Tree :=
  let (x, y, z) := Tree.axes
  let angle := y.mul (.const (v.k : ℝ))
  let sin_a := angle.sin
  let cos_a := angle.cos
  let rx := (x.mul cos_a).sub (z.mul sin_a)
  let rz := (x.mul sin_a).add (z.mul cos_a)
  remapXyz v.shape rx y rz

/-- Move a shape. -/
structure Move where
  shape : Tree
  offset : Vec3

/-- Conversion `impl From<Move> for Tree`: affine remap by the translation `-offset`. -/
def Move.toTree (v : Move) : Tree :=
  remapAffine v.shape (translation3 (-v.offset.x) (-v.offset.y) (-v.offset.z))

/-- Non-uniform scaling. -/
structure Scale where
  shape : Tree
  scale : Vec3

/-- The 4×4 homogeneous matrix of `nalgebra::Scale3::new(sx, sy, sz)`. -/
def scale3 (sx sy sz : ℝ) : Fin 4 → Fin 4 → ℝ := fun i j =>
  if (i : ℕ) = (j : ℕ) then (if i = 0 then sx else if i = 1 then sy else if i = 2 then sz else 1)
  else 0

/-- Conversion `impl From<Scale> for Tree`: affine remap by `diag(1/sx, 1/sy, 1/sz)`. -/
noncomputable def Scale.toTree (v : Scale) : Tree :=
  remapAffine v.shape (scale3 (1 / v.scale.x) (1 / v.scale.y) (1 / v.scale.z))

/-- Number of nested `min` nodes along the deepest path from the root, before
reaching any non-`min` node: the combine depth a balanced `Union` adds over
its (non-`min`-rooted) inputs. -/
def minDepth : Tree → ℕ
  | .min a b => 1 + Max.max (minDepth a) (minDepth b)
  | _ => 0

/-- Number of nested `max` nodes along the deepest path from the root. -/
def maxDepth : Tree → ℕ
  | .max a b => 1 + Max.max (maxDepth a) (maxDepth b)
  | _ => 0

/-- Whether the root node of a tree is a `min` combine node. -/
def isMinRoot : Tree → Bool
  | .min _ _ => true
  | _ => false

/-- Whether the root node of a tree is a `max` combine node. -/
def isMaxRoot : Tree → Bool
  | .max _ _ => true
  | _ => false

theorem minDepth_eq_zero (t : Tree) (h : isMinRoot t = false) : minDepth t = 0 := by
  cases t <;> simp_all [isMinRoot, minDepth]

theorem maxDepth_eq_zero (t : Tree) (h : isMaxRoot t = false) : maxDepth t = 0 := by
  cases t <;> simp_all [isMaxRoot, maxDepth]

theorem reduceMin_one (s : List Tree) (h : s.length = 1) :
    reduceMin s = s.headD (Tree.const ⊤) := by
  rw [reduceMin.eq_def]
  split <;> first | rfl | omega

theorem reduceMax_one (s : List Tree) (h : s.length = 1) :
    reduceMax s = s.headD (Tree.const ⊥) := by
  rw [reduceMax.eq_def]
  split <;> first | rfl | omega

theorem reduceMin_of_two_le (s : List Tree) (h : 2 ≤ s.length) :
    reduceMin s =
      Tree.min (reduceMin (s.take (s.length / 2))) (reduceMin (s.drop (s.length / 2))) := by
  rw [reduceMin.eq_def]
  split <;> first | rfl | omega

theorem reduceMax_of_two_le (s : List Tree) (h : 2 ≤ s.length) :
    reduceMax s =
      Tree.max (reduceMax (s.take (s.length / 2))) (reduceMax (s.drop (s.length / 2))) := by
  rw [reduceMax.eq_def]
  split <;> first | rfl | omega

theorem clog2_split (n : ℕ) (h : 2 ≤ n) :
    1 + Max.max (Nat.clog 2 (n / 2)) (Nat.clog 2 (n - n / 2)) = Nat.clog 2 n := by
  rw [Nat.clog_of_two_le one_lt_two h]
  have h1 : n - n / 2 = (n + 2 - 1) / 2 := by omega
  have h2 : Nat.clog 2 (n / 2) ≤ Nat.clog 2 (n - n / 2) :=
    Nat.clog_mono_right 2 (by omega)
  rw [Nat.add_comm, h1, max_eq_right (h1 ▸ h2)]

theorem minDepth_reduceMin :
    ∀ n (s : List Tree), s.length = n → 1 ≤ n → (∀ t ∈ s, isMinRoot t = false) →
      minDepth (reduceMin s) = Nat.clog 2 n := by
  intro n
  induction n using Nat.strong_induction_on with
  | _ n ih =>
    intro s hlen hpos hroots
    rcases Nat.lt_or_ge n 2 with hn | hn
    · have h1 : n = 1 := by omega
      subst h1
      obtain ⟨t, rfl⟩ := List.length_eq_one.mp hlen
      rw [reduceMin_one _ hlen]
      simpa [Nat.clog_one_right] using minDepth_eq_zero t (hroots t (by simp))
    · rw [reduceMin_of_two_le s (hlen ▸ hn)]
      have htake : (s.take (s.length / 2)).length = n / 2 := by
        simp [List.length_take]; omega
      have hdrop : (s.drop (s.length / 2)).length = n - n / 2 := by
        simp [List.length_drop]; omega
      have ht := ih (n / 2) (by omega) _ htake (by omega)
        (fun t ht' => hroots t (List.mem_of_mem_take ht'))
      have hd := ih (n - n / 2) (by omega) _ hdrop (by omega)
        (fun t ht' => hroots t (List.mem_of_mem_drop ht'))
      rw [show minDepth (Tree.min (reduceMin (s.take (s.length / 2)))
            (reduceMin (s.drop (s.length / 2)))) =
          1 + Max.max (minDepth (reduceMin (s.take (s.length / 2))))
            (minDepth (reduceMin (s.drop (s.length / 2)))) from rfl,
        ht, hd, clog2_split n hn]

theorem maxDepth_reduceMax :
    ∀ n (s : List Tree), s.length = n → 1 ≤ n → (∀ t ∈ s, isMaxRoot t = false) →
      maxDepth (reduceMax s) = Nat.clog 2 n := by
  intro n
  induction n using Nat.strong_induction_on with
  | _ n ih =>
    intro s hlen hpos hroots
    rcases Nat.lt_or_ge n 2 with hn | hn
    · have h1 : n = 1 := by omega
      subst h1
      obtain ⟨t, rfl⟩ := List.length_eq_one.mp hlen
      rw [reduceMax_one _ hlen]
      simpa [Nat.clog_one_right] using maxDepth_eq_zero t (hroots t (by simp))
    · rw [reduceMax_of_two_le s (hlen ▸ hn)]
      have htake : (s.take (s.length / 2)).length = n / 2 := by
        simp [List.length_take]; omega
      have hdrop : (s.drop (s.length / 2)).length = n - n / 2 := by
        simp [List.length_drop]; omega
      have ht := ih (n / 2) (by omega) _ htake (by omega)
        (fun t ht' => hroots t (List.mem_of_mem_take ht'))
      have hd := ih (n - n / 2) (by omega) _ hdrop (by omega)
        (fun t ht' => hroots t (List.mem_of_mem_drop ht'))
      rw [show maxDepth (Tree.max (reduceMax (s.take (s.length / 2)))
            (reduceMax (s.drop (s.length / 2)))) =
          1 + Max.max (maxDepth (reduceMax (s.take (s.length / 2))))
            (maxDepth (reduceMax (s.drop (s.length / 2)))) from rfl,
        ht, hd, clog2_split n hn]

theorem reduceMin_pair (a b : Tree) : reduceMin [a, b] = Tree.min a b := by
  rw [reduceMin_of_two_le [a, b] (by simp)]
  norm_num
  rw [reduceMin_one [a] (by simp), reduceMin_one [b] (by simp)]
  exact ⟨rfl, rfl⟩

theorem reduceMax_pair (a b : Tree) : reduceMax [a, b] = Tree.max a b := by
  rw [reduceMax_of_two_le [a, b] (by simp)]
  norm_num
  rw [reduceMax_one [a] (by simp), reduceMax_one [b] (by simp)]
  exact ⟨rfl, rfl⟩

@[simp, norm_cast]
theorem coe_min_ereal (a b : ℝ) :
    ((Min.min a b : ℝ) : EReal) = Min.min ((a : ℝ) : EReal) ((b : ℝ) : EReal) := by
  rcases le_total a b with h | h
  · rw [min_eq_left h, min_eq_left (EReal.coe_le_coe_iff.mpr h)]
  · rw [min_eq_right h, min_eq_right (EReal.coe_le_coe_iff.mpr h)]

@[simp, norm_cast]
theorem coe_max_ereal (a b : ℝ) :
    ((Max.max a b : ℝ) : EReal) = Max.max ((a : ℝ) : EReal) ((b : ℝ) : EReal) := by
  rcases le_total a b with h | h
  · rw [max_eq_right h, max_eq_right (EReal.coe_le_coe_iff.mpr h)]
  · rw [max_eq_left h, max_eq_left (EReal.coe_le_coe_iff.mpr h)]

theorem esquare_coe (a : ℝ) : esquare ((a : ℝ) : EReal) = ((a * a : ℝ) : EReal) := by
  rw [esquare, EReal.coe_mul]

theorem esqrt_coe (a : ℝ) : esqrt ((a : ℝ) : EReal) = ((Real.sqrt a : ℝ) : EReal) := by
  rw [esqrt, if_neg (EReal.coe_ne_top a), EReal.toReal_coe]

theorem eabs_coe (a : ℝ) : eabs ((a : ℝ) : EReal) = ((|a| : ℝ) : EReal) := by
  rw [eabs, abs_eq_max_neg, coe_max_ereal, EReal.coe_neg]

theorem emod_coe (a p : ℝ) : emod ((a : ℝ) : EReal) p = ((rmod a p : ℝ) : EReal) := by
  rw [emod, EReal.toReal_coe]

theorem esin_coe (a : ℝ) : esin ((a : ℝ) : EReal) = ((Real.sin a : ℝ) : EReal) := by
  rw [esin, EReal.toReal_coe]

theorem ecos_coe (a : ℝ) : ecos ((a : ℝ) : EReal) = ((Real.cos a : ℝ) : EReal) := by
  rw [ecos, EReal.toReal_coe]

/-- Real-valued evaluation for trees all of whose constants are finite; agrees
with `eval` on such trees (`eval_eq_coe_evalR`). -/
noncomputable def evalR : Tree → ℝ × ℝ × ℝ → ℝ
  | .x, p => p.1
  | .y, p => p.2.1
  | .z, p => p.2.2
  | .const c, _ => c.toReal
  | .add a b, p => evalR a p + evalR b p
  | .sub a b, p => evalR a p - evalR b p
  | .mul a b, p => evalR a p * evalR b p
  | .neg a, p => - evalR a p
  | .min a b, p => Min.min (evalR a p) (evalR b p)
  | .max a b, p => Max.max (evalR a p) (evalR b p)
  | .square a, p => evalR a p * evalR a p
  | .sqrt a, p => Real.sqrt (evalR a p)
  | .abs a, p => |evalR a p|
  | .sin a, p => Real.sin (evalR a p)
  | .cos a, p => Real.cos (evalR a p)
  | .modulo a q, p => rmod (evalR a p) q

/-- All constants of the tree are finite extended reals. -/
def FinTree : Tree → Prop
  | .x => True
  | .y => True
  | .z => True
  | .const c => c ≠ ⊤ ∧ c ≠ ⊥
  | .add a b => FinTree a ∧ FinTree b
  | .sub a b => FinTree a ∧ FinTree b
  | .mul a b => FinTree a ∧ FinTree b
  | .neg a => FinTree a
  | .min a b => FinTree a ∧ FinTree b
  | .max a b => FinTree a ∧ FinTree b
  | .square a => FinTree a
  | .sqrt a => FinTree a
  | .abs a => FinTree a
  | .sin a => FinTree a
  | .cos a => FinTree a
  | .modulo a _ => FinTree a

theorem eval_eq_coe_evalR (t : Tree) (ht : FinTree t) (p : ℝ × ℝ × ℝ) :
    eval t p = ((evalR t p : ℝ) : EReal) := by
  induction t with
  | x => rfl
  | y => rfl
  | z => rfl
  | const c =>
      show c = ((c.toReal : ℝ) : EReal)
      exact (EReal.coe_toReal ht.1 ht.2).symm
  | add a b iha ihb =>
      simp only [eval, evalR, iha ht.1 , ihb ht.2, EReal.coe_add]
  | sub a b iha ihb =>
      simp only [eval, evalR, iha ht.1, ihb ht.2, EReal.coe_sub]
  | mul a b iha ihb =>
      simp only [eval, evalR, iha ht.1, ihb ht.2, EReal.coe_mul]
  | neg a iha =>
      simp only [eval, evalR, iha ht, EReal.coe_neg]
  | min a b iha ihb =>
      simp only [eval, evalR, iha ht.1, ihb ht.2, coe_min_ereal]
  | max a b iha ihb =>
      simp only [eval, evalR, iha ht.1, ihb ht.2, coe_max_ereal]
  | square a iha => simp only [eval, evalR, iha ht, esquare_coe]
  | sqrt a iha => simp only [eval, evalR, iha ht, esqrt_coe]
  | abs a iha => simp only [eval, evalR, iha ht, eabs_coe]
  | sin a iha => simp only [eval, evalR, iha ht, esin_coe]
  | cos a iha => simp only [eval, evalR, iha ht, ecos_coe]
  | modulo a q iha => simp only [eval, evalR, iha ht, emod_coe]

/-- Substitution lemma: remapping X, Y, Z by trees evaluating to finite values
evaluates the remapped tree at the image point. -/
theorem eval_remapXyz (t tx ty tz : Tree) (p : ℝ × ℝ × ℝ) (a b c : ℝ)
    (hx : eval tx p = ((a : ℝ) : EReal)) (hy : eval ty p = ((b : ℝ) : EReal))
    (hz : eval tz p = ((c : ℝ) : EReal)) :
    eval (remapXyz t tx ty tz) p = eval t (a, b, c) := by
  induction t with
  | x => exact hx
  | y => exact hy
  | z => exact hz
  | const d => rfl
  | add u v ihu ihv => simp only [remapXyz, eval, ihu, ihv]
  | sub u v ihu ihv => simp only [remapXyz, eval, ihu, ihv]
  | mul u v ihu ihv => simp only [remapXyz, eval, ihu, ihv]
  | neg u ihu => simp only [remapXyz, eval, ihu]
  | min u v ihu ihv => simp only [remapXyz, eval, ihu, ihv]
  | max u v ihu ihv => simp only [remapXyz, eval, ihu, ihv]
  | square u ihu => simp only [remapXyz, eval, ihu]
  | sqrt u ihu => simp only [remapXyz, eval, ihu]
  | abs u ihu => simp only [remapXyz, eval, ihu]
  | sin u ihu => simp only [remapXyz, eval, ihu]
  | cos u ihu => simp only [remapXyz, eval, ihu]
  | modulo u q ihu => simp only [remapXyz, eval, ihu]

/-- C1: On a non-empty input sequence `s` of `n` trees, Union (resp.
Intersection) reduces by balanced pairwise `min` (resp. `max`): for `n ≥ 2`
the sequence splits at `n / 2`, the left half receiving exactly `⌊n/2⌋`
elements, each half is reduced and the results combined; consequently, when no
input is itself rooted at a combine node, the produced tree carries exactly
`⌈log₂ n⌉` combine nodes on its deepest path over the inputs. -/
theorem union_intersection_balanced_depth (s : List Tree) (hne : s ≠ []) :
    (2 ≤ s.length →
      (s.take (s.length / 2)).length = s.length / 2 ∧
      Union.toTree ⟨s⟩ =
        Tree.min (reduceMin (s.take (s.length / 2))) (reduceMin (s.drop (s.length / 2))) ∧
      Intersection.toTree ⟨s⟩ =
        Tree.max (reduceMax (s.take (s.length / 2))) (reduceMax (s.drop (s.length / 2)))) ∧
    ((∀ t ∈ s, isMinRoot t = false) →
      minDepth (Union.toTree ⟨s⟩) = Nat.clog 2 s.length) ∧
    ((∀ t ∈ s, isMaxRoot t = false) →
      maxDepth (Intersection.toTree ⟨s⟩) = Nat.clog 2 s.length) := by
  have hempty : s.isEmpty = false := by
    cases s with
    | nil => exact absurd rfl hne
    | cons a l => rfl
  have hpos : 1 ≤ s.length := by
    cases s with
    | nil => exact absurd rfl hne
    | cons a l => simp
  refine ⟨fun h2 => ⟨?_, ?_, ?_⟩, fun h => ?_, fun h => ?_⟩
  · simp [List.length_take]; omega
  · show (if s.isEmpty then Tree.const ⊤ else reduceMin s) = _
    rw [hempty, if_neg (by simp), reduceMin_of_two_le s h2]
  · show (if s.isEmpty then Tree.const ⊥ else reduceMax s) = _
    rw [hempty, if_neg (by simp), reduceMax_of_two_le s h2]
  · show minDepth (if s.isEmpty then Tree.const ⊤ else reduceMin s) = _
    rw [hempty, if_neg (by simp)]
    exact minDepth_reduceMin s.length s rfl hpos h
  · show maxDepth (if s.isEmpty then Tree.const ⊥ else reduceMax s) = _
    rw [hempty, if_neg (by simp)]
    exact maxDepth_reduceMax s.length s rfl hpos h

/-- Witness for C1 at the concrete three-element input `[X, Y, Z]`:
`⌈log₂ 3⌉ = 2` combine nodes for both Union and Intersection. -/
theorem union_intersection_balanced_depth_witness :
    minDepth (Union.toTree ⟨[Tree.x, Tree.y, Tree.z]⟩) = 2 ∧
    maxDepth (Intersection.toTree ⟨[Tree.x, Tree.y, Tree.z]⟩) = 2 := by
  have h := union_intersection_balanced_depth [Tree.x, Tree.y, Tree.z] (by simp)
  have hmin := h.2.1 (by intro t ht; fin_cases ht <;> rfl)
  have hmax := h.2.2 (by intro t ht; fin_cases ht <;> rfl)
  have h2 : Nat.clog 2 2 = 1 := by
    rw [Nat.clog_of_two_le one_lt_two le_rfl]
    norm_num [Nat.clog_one_right]
  have h3 : Nat.clog 2 3 = 2 := by
    rw [Nat.clog_of_two_le one_lt_two (by norm_num)]
    norm_num [h2]
  have hl : ([Tree.x, Tree.y, Tree.z] : List Tree).length = 3 := rfl
  rw [hl, h3] at hmin hmax
  exact ⟨hmin, hmax⟩

/-- C2: Converting a Union with empty input produces the constant tree `+∞`,
and converting an Intersection with empty input produces the constant tree
`−∞`; both conversions are total (no error channel) and the produced trees
evaluate to `+∞` / `−∞` at every point. -/
theorem union_intersection_empty :
    Union.toTree ⟨[]⟩ = Tree.const ⊤ ∧
    Intersection.toTree ⟨[]⟩ = Tree.const ⊥ ∧
    (∀ p : ℝ × ℝ × ℝ, eval (Union.toTree ⟨[]⟩) p = ⊤) ∧
    (∀ p : ℝ × ℝ × ℝ, eval (Intersection.toTree ⟨[]⟩) p = ⊥) :=
  ⟨rfl, rfl, fun _ => rfl, fun _ => rfl⟩

/-- C8: Union and Intersection of a singleton input `[A]` both yield exactly
the tree `A` itself — no `min`/`max` node is added. -/
theorem union_intersection_singleton (A : Tree) :
    Union.toTree ⟨[A]⟩ = A ∧ Intersection.toTree ⟨[A]⟩ = A := by
  constructor
  · show (if ([A] : List Tree).isEmpty then Tree.const ⊤ else reduceMin [A]) = A
    rw [if_neg (by simp), reduceMin_one [A] (by simp)]
    rfl
  · show (if ([A] : List Tree).isEmpty then Tree.const ⊥ else reduceMax [A]) = A
    rw [if_neg (by simp), reduceMax_one [A] (by simp)]
    rfl

/-- C3: A converted Cylinder evaluates at `(x,y,z)` to
`√(max(dx,0)² + max(dy,0)²) + min(max(dx,dy),0)` with
`dx = √((x−cx)² + (z−cz)²) − r` and `dy = |y−cy| − hh`; in particular, for
center 0, radius 1 and half-height 2 it evaluates at `(2,3,0)` to `√2`. -/
theorem cylinder_sdf :
    (∀ (c : Vec3) (r hh x y z : ℝ),
      eval (Cylinder.toTree ⟨c, r, hh⟩) (x, y, z) =
        ((Real.sqrt (Max.max (Real.sqrt ((x - c.x) ^ 2 + (z - c.z) ^ 2) - r) 0 ^ 2 +
              Max.max (|y - c.y| - hh) 0 ^ 2) +
            Min.min (Max.max (Real.sqrt ((x - c.x) ^ 2 + (z - c.z) ^ 2) - r)
              (|y - c.y| - hh)) 0 : ℝ) : EReal)) ∧
    eval (Cylinder.toTree ⟨⟨0, 0, 0⟩, 1, 2⟩) (2, 3, 0) = ((Real.sqrt 2 : ℝ) : EReal) := by
  have g : ∀ (c : Vec3) (r hh x y z : ℝ),
      eval (Cylinder.toTree ⟨c, r, hh⟩) (x, y, z) =
        ((Real.sqrt (Max.max (Real.sqrt ((x - c.x) ^ 2 + (z - c.z) ^ 2) - r) 0 ^ 2 +
              Max.max (|y - c.y| - hh) 0 ^ 2) +
            Min.min (Max.max (Real.sqrt ((x - c.x) ^ 2 + (z - c.z) ^ 2) - r)
              (|y - c.y| - hh)) 0 : ℝ) : EReal) := by
    intro c r hh x y z
    rw [eval_eq_coe_evalR _ (by simp [Cylinder.toTree, Tree.axes, FinTree]) _]
    norm_cast
    simp only [Cylinder.toTree, Tree.axes, evalR, EReal.toReal_coe, pow_two]
  refine ⟨g, ?_⟩
  rw [g ⟨0, 0, 0⟩ 1 2 2 3 0]
  norm_cast
  rw [show ((2:ℝ) - 0) ^ 2 + ((0:ℝ) - 0) ^ 2 = 2 ^ 2 by norm_num,
    Real.sqrt_sq (by norm_num : (0:ℝ) ≤ 2)]
  rw [show |(3:ℝ) - 0| = 3 by rw [abs_of_nonneg] <;> norm_num]
  norm_num [max_def, min_def]

/-- C4: A converted Cuboid evaluates at `(x,y,z)` to the 3D box SDF
`√(max(dx,0)² + max(dy,0)² + max(dz,0)²) + min(max(dx,max(dy,dz)),0)` with
`di = |pi − ci| − hi` per axis; in particular, for center 0 and half-size
`(1,2,3)` it evaluates at `(0,0,4)` to `1`. -/
theorem cuboid_sdf :
    (∀ (c h : Vec3) (x y z : ℝ),
      eval (Cuboid.toTree ⟨c, h⟩) (x, y, z) =
        ((Real.sqrt (Max.max (|x - c.x| - h.x) 0 ^ 2 + Max.max (|y - c.y| - h.y) 0 ^ 2 +
              Max.max (|z - c.z| - h.z) 0 ^ 2) +
            Min.min (Max.max (|x - c.x| - h.x)
              (Max.max (|y - c.y| - h.y) (|z - c.z| - h.z))) 0 : ℝ) : EReal)) ∧
    eval (Cuboid.toTree ⟨⟨0, 0, 0⟩, ⟨1, 2, 3⟩⟩) (0, 0, 4) = (((1 : ℝ) : ℝ) : EReal) := by
  have g : ∀ (c h : Vec3) (x y z : ℝ),
      eval (Cuboid.toTree ⟨c, h⟩) (x, y, z) =
        ((Real.sqrt (Max.max (|x - c.x| - h.x) 0 ^ 2 + Max.max (|y - c.y| - h.y) 0 ^ 2 +
              Max.max (|z - c.z| - h.z) 0 ^ 2) +
            Min.min (Max.max (|x - c.x| - h.x)
              (Max.max (|y - c.y| - h.y) (|z - c.z| - h.z))) 0 : ℝ) : EReal) := by
    intro c h x y z
    rw [eval_eq_coe_evalR _ (by simp [Cuboid.toTree, Tree.axes, FinTree]) _]
    norm_cast
    simp only [Cuboid.toTree, Tree.axes, evalR, EReal.toReal_coe, pow_two]
  refine ⟨g, ?_⟩
  rw [g ⟨0, 0, 0⟩ ⟨1, 2, 3⟩ 0 0 4]
  norm_cast
  rw [show |(0:ℝ) - 0| = 0 by norm_num, show |(4:ℝ) - 0| = 4 by
    rw [abs_of_nonneg] <;> norm_num]
  norm_num [max_def, min_def, Real.sqrt_one]

/-- C5: A converted Repeat is the shape tree with coordinates substituted by
`(X + hx) mod cell.x − hx` (and analogously on Y, Z) where `hi = cell.i / 2`;
in particular, a unit sphere at the origin repeated with cell `(4,4,4)`
evaluates to `0` at `(3,0,0)` and to `−1` at `(0,0,0)`. -/
theorem repeat_sdf :
    (∀ (S : Tree) (cell : Vec3),
      Repeat.toTree ⟨S, cell⟩ =
        remapXyz S
          (Tree.sub ((Tree.x.add (.const ((cell.x / 2 : ℝ) : EReal))).modulo cell.x)
            (.const ((cell.x / 2 : ℝ) : EReal)))
          (Tree.sub ((Tree.y.add (.const ((cell.y / 2 : ℝ) : EReal))).modulo cell.y)
            (.const ((cell.y / 2 : ℝ) : EReal)))
          (Tree.sub ((Tree.z.add (.const ((cell.z / 2 : ℝ) : EReal))).modulo cell.z)
            (.const ((cell.z / 2 : ℝ) : EReal)))) ∧
    eval (Repeat.toTree ⟨Sphere.toTree ⟨⟨0, 0, 0⟩, 1⟩, ⟨4, 4, 4⟩⟩) (3, 0, 0) =
      (((0 : ℝ)) : EReal) ∧
    eval (Repeat.toTree ⟨Sphere.toTree ⟨⟨0, 0, 0⟩, 1⟩, ⟨4, 4, 4⟩⟩) (0, 0, 0) =
      ((-1 : ℝ) : EReal) := by
  have hf1 : (⌊(5 : ℝ) / 4⌋ : ℤ) = 1 := by
    rw [Int.floor_eq_iff]
    norm_num
  have hf0 : (⌊(2 : ℝ) / 4⌋ : ℤ) = 0 := by
    rw [Int.floor_eq_iff]
    norm_num
  have hm1 : rmod (3 + 4 * 0.5 : ℝ) 4 = 1 := by
    rw [rmod, show (3 + 4 * 0.5 : ℝ) = 5 by norm_num, hf1]
    norm_num
  have hm0 : rmod (0 + 4 * 0.5 : ℝ) 4 = 2 := by
    rw [rmod, show (0 + 4 * 0.5 : ℝ) = 2 by norm_num, hf0]
    norm_num
  refine ⟨fun S cell => ?_, ?_, ?_⟩
  · simp only [Repeat.toTree, Tree.axes]
    rw [show cell.x * 0.5 = cell.x / 2 by ring, show cell.y * 0.5 = cell.y / 2 by ring,
      show cell.z * 0.5 = cell.z / 2 by ring]
  · rw [eval_eq_coe_evalR _
      (by simp only [Repeat.toTree, Sphere.toTree, Tree.axes, remapXyz, FinTree, ne_eq,
        EReal.coe_ne_top, EReal.coe_ne_bot, not_false_eq_true, and_self]) _]
    norm_cast
    simp only [Repeat.toTree, Sphere.toTree, Tree.axes, remapXyz, evalR, EReal.toReal_coe]
    rw [hm1, hm0]
    norm_num [Real.sqrt_one]
  · rw [eval_eq_coe_evalR _
      (by simp only [Repeat.toTree, Sphere.toTree, Tree.axes, remapXyz, FinTree, ne_eq,
        EReal.coe_ne_top, EReal.coe_ne_bot, not_false_eq_true, and_self]) _]
    norm_cast
    simp only [Repeat.toTree, Sphere.toTree, Tree.axes, remapXyz, evalR, EReal.toReal_coe]
    rw [hm0]
    norm_num [Real.sqrt_zero]

theorem eval_affineCoord (m : Fin 4 → Fin 4 → ℝ) (i : Fin 4) (p : ℝ × ℝ × ℝ) :
    eval (affineCoord m i) p =
      ((m i 0 * p.1 + m i 1 * p.2.1 + m i 2 * p.2.2 + m i 3 : ℝ) : EReal) := by
  simp only [affineCoord, eval]
  norm_cast

theorem eval_move (t : Tree) (v : Vec3) (p : ℝ × ℝ × ℝ) :
    eval (Move.toTree ⟨t, v⟩) p = eval t (p.1 - v.x, p.2.1 - v.y, p.2.2 - v.z) := by
  refine eval_remapXyz t _ _ _ p _ _ _ ?_ ?_ ?_ <;>
    rw [eval_affineCoord] <;> norm_cast <;>
    simp only [show ∀ a b c : ℝ, translation3 a b c 0 0 = 1 from fun _ _ _ => rfl,
      show ∀ a b c : ℝ, translation3 a b c 0 1 = 0 from fun _ _ _ => rfl,
      show ∀ a b c : ℝ, translation3 a b c 0 2 = 0 from fun _ _ _ => rfl,
      show ∀ a b c : ℝ, translation3 a b c 0 3 = a from fun _ _ _ => rfl,
      show ∀ a b c : ℝ, translation3 a b c 1 0 = 0 from fun _ _ _ => rfl,
      show ∀ a b c : ℝ, translation3 a b c 1 1 = 1 from fun _ _ _ => rfl,
      show ∀ a b c : ℝ, translation3 a b c 1 2 = 0 from fun _ _ _ => rfl,
      show ∀ a b c : ℝ, translation3 a b c 1 3 = b from fun _ _ _ => rfl,
      show ∀ a b c : ℝ, translation3 a b c 2 0 = 0 from fun _ _ _ => rfl,
      show ∀ a b c : ℝ, translation3 a b c 2 1 = 0 from fun _ _ _ => rfl,
      show ∀ a b c : ℝ, translation3 a b c 2 2 = 1 from fun _ _ _ => rfl,
      show ∀ a b c : ℝ, translation3 a b c 2 3 = c from fun _ _ _ => rfl] <;>
    ring_nf

/-- The primitive-shape catalog, abstracted over the center point, used to
state translation equivariance uniformly over every primitive. -/
inductive Prim where
  | circle (radius : ℝ)
  | rect (half_size : Vec2)
  | sphere (radius : ℝ)
  | cuboid (half_size : Vec3)
  | cylinder (radius half_height : ℝ)
  | torus (major_radius tube_radius : ℝ)

/-- The catalog primitive with its center placed at `c` (2D primitives take
the XY components of `c`). -/
def Prim.toTreeAt : Prim → Vec3 → Tree
  | .circle r, c => Circle.toTree ⟨⟨c.x, c.y⟩, r⟩
  | .rect h, c => Rect.toTree ⟨⟨c.x, c.y⟩, h⟩
  | .sphere r, c => Sphere.toTree ⟨c, r⟩
  | .cuboid h, c => Cuboid.toTree ⟨c, h⟩
  | .cylinder r hh, c => Cylinder.toTree ⟨c, r, hh⟩
  | .torus rr tr, c => Torus.toTree ⟨c, rr, tr⟩

theorem finTree_toTreeAt (P : Prim) (c : Vec3) : FinTree (P.toTreeAt c) := by
  cases P <;>
    simp only [Prim.toTreeAt, Circle.toTree, Rect.toTree, Sphere.toTree, Cuboid.toTree,
      Cylinder.toTree, Torus.toTree, Tree.axes, FinTree, ne_eq,
      EReal.coe_ne_top, EReal.coe_ne_bot, not_false_eq_true, and_self]

/-- C7: translation equivariance of Move: for every catalog primitive placed
at the origin, moving it by `v` (which substitutes the translation by `−v`
into the coordinates) evaluates everywhere like the same primitive with its
center at `v`. -/
theorem move_translation_equivariance (P : Prim) (v : Vec3) (p : ℝ × ℝ × ℝ) :
    eval (Move.toTree ⟨P.toTreeAt ⟨0, 0, 0⟩, v⟩) p = eval (P.toTreeAt v) p := by
  rw [eval_move, eval_eq_coe_evalR _ (finTree_toTreeAt P ⟨0, 0, 0⟩) _,
    eval_eq_coe_evalR _ (finTree_toTreeAt P v) _]
  norm_cast
  cases P <;>
    simp only [Prim.toTreeAt, Circle.toTree, Rect.toTree, Sphere.toTree, Cuboid.toTree,
      Cylinder.toTree, Torus.toTree, Tree.axes, evalR, EReal.toReal_coe] <;>
    ring_nf

/-- C9: Inverse negates the evaluated SDF value at every point, so applying it
twice restores the original value at every point. -/
theorem inverse_involution (S : Tree) (p : ℝ × ℝ × ℝ) :
    eval (Inverse.toTree ⟨Inverse.toTree ⟨S⟩⟩) p = eval S p ∧
    eval (Inverse.toTree ⟨S⟩) p = - eval S p := by
  refine ⟨?_, rfl⟩
  show - - eval S p = eval S p
  exact neg_neg _

/-- C10: `Difference{shape: A, cutout: B}` evaluates at every point to the
same value as `Intersection{input: [A, Inverse{shape: B}]}` — in fact the two
conversions produce the identical tree `max A (-B)`. -/
theorem difference_eq_intersection_inverse (A B : Tree) (p : ℝ × ℝ × ℝ) :
    eval (Difference.toTree ⟨A, B⟩) p =
      eval (Intersection.toTree ⟨[A, Inverse.toTree ⟨B⟩]⟩) p := by
  have hrhs : Intersection.toTree ⟨[A, Inverse.toTree ⟨B⟩]⟩ =
      Tree.max A (Tree.neg B) := by
    show (if ([A, Inverse.toTree ⟨B⟩] : List Tree).isEmpty then Tree.const ⊥
          else reduceMax [A, Inverse.toTree ⟨B⟩]) = _
    rw [if_neg (by simp), reduceMax_pair]
    rfl
  rw [hrhs]
  rfl

end Fidget
